import Mathlib

/-!
Verification development for the `frate-packages/new_indexer` repository.

The repository has three Go source files:
  * `src/main.go` — two variants of the manifest normalizer (`RawPackage.Transform`),
    together with the remote version resolver (`parseRemoteLsTags`,
    `validateVersionName`, `getRemoteVersions`).
  * `src/unnamed/part_001` — the HTTP catalog server backed by a SQLite store
    (`createPackage`, `insertDependencies`, `insertFeatures`, `getPackage`,
    `getPackageDependencies`, `getPackageFeatures`, `getFeatureDependencies`,
    `listPackages`, `deletePackage`).
  * `src/unnamed/part_000` — a Dockerfile (no logic).

Every definition below is a shallow embedding of the corresponding Go code.
Dynamic JSON values (`interface{}` after `json.Unmarshal`) are modelled by the
inductive type `JVal`; a failed Go type assertion (which panics at run time and
aborts the whole process) is modelled by the distinguished outcome `crash`,
kept separate from an `error` value returned to the caller.
-/

namespace NewIndexer

/-- Model of a decoded Go `interface{}` JSON value: `string`, `float64`
(numbers are irrelevant to every claim, kept abstract as `Int`), `bool`,
`nil`, `[]interface{}`, `map[string]interface{}` (field order as in the
document; Go keeps the last binding for a duplicated key). -/
inductive JVal where
  | str (s : String)
  | num (n : Int)
  | boolV (b : Bool)
  | null
  | arr (elems : List JVal)
  | obj (fields : List (String × JVal))

/-- Go map lookup `m["k"]` on a JSON object: the last binding wins
(encoding/json keeps the last duplicate key); a missing key yields `nil`,
modelled as `none`. -/
def jLookup (fields : List (String × JVal)) (key : String) : Option JVal :=
  ((fields.filter (fun kv => kv.1 == key)).getLast?).map Prod.snd

/-- `Feature` struct shared by all three Go files. -/
structure Feature where
  description : String
  requiredFeatures : List String
  dependencies : List String
deriving DecidableEq

/-- `Package` struct: union of the fields of the three Go variants
(`tag`, `versions` and `cmakeTarget` are absent from some variants and are
then the Go zero values `""` / `[]`).  The feature map is carried as an
association list in document/iteration order. -/
structure Package where
  name : String
  version : String
  tag : String
  versions : List String
  description : String
  gitURL : String
  license : String
  supports : String
  stars : Int
  lastModified : String
  dependencies : List String
  features : List (String × Feature)
  cmakeTarget : String
deriving DecidableEq

/-- `RawPackage` struct: the `json.RawMessage` fields hold the raw JSON of
the field, or `none` when the field was absent from the document
(`json.Unmarshal` of an empty `RawMessage` fails). -/
structure RawPackage where
  name : String
  version : String
  description : Option JVal
  gitURL : String
  license : String
  supports : String
  stars : Int
  lastModified : String
  dependencies : Option JVal
  features : Option JVal

/-- Outcome of a Go code path that can panic: `ok` is a normal value,
`crash` is an uncaught run-time panic (failed type assertion), which aborts
the entire process. -/
inductive DecodeOut (α : Type) where
  | ok (a : α)
  | crash
deriving DecidableEq

/-- Result of `RawPackage.Transform`: a `Package`, a returned decode
`error`, or a run-time panic. -/
inductive TResult where
  | ok (p : Package)
  | err
  | crash
deriving DecidableEq

/-- `json.Unmarshal(raw, &mixedDeps)` with `mixedDeps []interface{}`:
succeeds exactly on a JSON array (or `null`, which leaves the slice `nil`);
anything else, including an absent field, is a decode error. -/
def decodeMixedList : Option JVal → Option (List JVal)
  | some (.arr l) => some l
  | some .null => some []
  | _ => none

/-- strings.Join(l, ", "). -/
def joinCS : List String → String
  | [] => ""
  | [s] => s
  | s :: rest => s ++ ", " ++ joinCS rest

/-- `json.Unmarshal` into `[]string` element-wise: every element must be a
string (a `null` element leaves the zero value `""`); any other element
shape is a decode error. -/
def asStringList : List JVal → Option (List String)
  | [] => some []
  | .str s :: rest => (asStringList rest).map (s :: ·)
  | .null :: rest => (asStringList rest).map ("" :: ·)
  | _ => none

/-- Description handling in `Transform` (both variants, src/main.go lines
85–95 and 388–396): try a string decode; on failure try a `[]string` decode
and join with `", "`; if both fail the package's normalization fails. -/
def decodeDescription : Option JVal → Option String
  | some (.str s) => some s
  | some .null => some ""
  | some (.arr l) => (asStringList l).map joinCS
  | _ => none

/-- The strict-variant filter set for build-tool bootstrap dependencies. -/
def isVcpkgBootstrap (s : String) : Bool :=
  s == "vcpkg-cmake" || s == "vcpkg-msbuild" || s == "vcpkg-cmake-config"

/-- Dependency loop of the strict `Transform` (src/main.go lines 64–83):
a bare string is appended unless it is a bootstrap name; an object's
`name` field is read by the unchecked type assertion
`depType["name"].(string)` — a missing or non-string `name` panics
(`crash`); any other element shape prints a diagnostic and is skipped. -/
def processDeps : List JVal → DecodeOut (List String)
  | [] => .ok []
  | .str s :: rest =>
    match processDeps rest with
    | .ok l => .ok (if isVcpkgBootstrap s then l else s :: l)
    | .crash => .crash
  | .obj fields :: rest =>
    match jLookup fields "name" with
    | some (.str nm) =>
      match processDeps rest with
      | .ok l => .ok (if isVcpkgBootstrap nm then l else nm :: l)
      | .crash => .crash
    | _ => .crash
  | _ :: rest => processDeps rest

/-- Feature-dependency loop (src/main.go lines 128–146 and 428–444): for a
feature `featName` of package `pkgName`, a bare string goes to the feature's
`dependencies`; an object's `name` (unchecked assertion, panics when missing
or non-string) goes to `required_features` as the feature's *own* name when
it equals the owning package's name, otherwise to `dependencies`; any other
shape prints a diagnostic and is skipped.  Returns
`(featureDeps, requiredFeatures)`. -/
def processFeatureDeps (pkgName featName : String) :
    List JVal → DecodeOut (List String × List String)
  | [] => .ok ([], [])
  | .str s :: rest =>
    match processFeatureDeps pkgName featName rest with
    | .ok (ds, rs) => .ok (s :: ds, rs)
    | .crash => .crash
  | .obj fields :: rest =>
    match jLookup fields "name" with
    | some (.str nm) =>
      match processFeatureDeps pkgName featName rest with
      | .ok (ds, rs) =>
        if nm == pkgName then .ok (ds, featName :: rs) else .ok (nm :: ds, rs)
      | .crash => .crash
    | _ => .crash
  | _ :: rest => processFeatureDeps pkgName featName rest

/-- Elements of a feature-description array are read by `d.(string)`:
a non-string element panics. -/
def allStringsAssert : List JVal → DecodeOut (List String)
  | [] => .ok []
  | .str s :: rest =>
    match allStringsAssert rest with
    | .ok l => .ok (s :: l)
    | .crash => .crash
  | _ :: _ => .crash

/-- Feature description switch (src/main.go lines 112–123): a string is
taken as is; an array is asserted element-wise to strings and joined with
`", "`; any other shape (including a missing field) leaves the zero value
`""` (the switch has no default). -/
def featureDescriptionOf (fields : List (String × JVal)) : DecodeOut String :=
  match jLookup fields "description" with
  | some (.str s) => .ok s
  | some (.arr ds) =>
    match allStringsAssert ds with
    | .ok l => .ok (joinCS l)
    | .crash => .crash
  | _ => .ok ""

/-- Iteration over the entries of a feature map (src/main.go lines
109–153): each feature value is asserted to be an object
(`feat.(map[string]interface{})` panics otherwise); its description and
dependency list are processed; a `dependencies` field that is not an array
(or is absent) contributes no dependencies (checked type assertion with
`ok`). -/
def processFeatureEntries (pkgName : String) :
    List (String × JVal) → DecodeOut (List (String × Feature))
  | [] => .ok []
  | (fname, .obj featMap) :: rest =>
    match featureDescriptionOf featMap with
    | .crash => .crash
    | .ok fdesc =>
      match (match jLookup featMap "dependencies" with
             | some (.arr deps) => processFeatureDeps pkgName fname deps
             | _ => .ok ([], [])) with
      | .crash => .crash
      | .ok (fdeps, reqs) =>
        match processFeatureEntries pkgName rest with
        | .crash => .crash
        | .ok tail => .ok ((fname, ⟨fdesc, reqs, fdeps⟩) :: tail)
  | (_, _) :: _ => .crash

/-- Features handling of `Transform` (src/main.go lines 97–160): an absent
or empty raw value yields no features; a JSON object is iterated; an array
or any other shape logs and yields zero features. -/
def processFeatures (pkgName : String) :
    Option JVal → DecodeOut (List (String × Feature))
  | none => .ok []
  | some (.obj entries) => processFeatureEntries pkgName entries
  | some _ => .ok []

/-- `RawPackage.Transform` of the strict normalizer variant (src/main.go
lines 54–174): dependencies, then description, then features; a failed
`json.Unmarshal` returns an error, a failed type assertion panics. -/
def Transform (rp : RawPackage) : TResult :=
  match decodeMixedList rp.dependencies with
  | none => .err
  | some mixedDeps =>
    match processDeps mixedDeps with
    | .crash => .crash
    | .ok dependencyList =>
      match decodeDescription rp.description with
      | none => .err
      | some description =>
        match processFeatures rp.name rp.features with
        | .crash => .crash
        | .ok featuresMap =>
          .ok { name := rp.name, version := rp.version, tag := "",
                versions := [], description := description,
                gitURL := rp.gitURL, license := rp.license,
                supports := rp.supports, stars := rp.stars,
                lastModified := rp.lastModified,
                dependencies := dependencyList,
                features := featuresMap, cmakeTarget := "" }

/-- The ingestion loop of `main` (src/main.go lines 195–203): a returned
transform error drops that package and continues; a panic aborts the whole
run (`none`) before any output is written. -/
def runBatch : List RawPackage → Option (List Package)
  | [] => some []
  | e :: rest =>
    match Transform e with
    | .ok p => (runBatch rest).map (p :: ·)
    | .err => runBatch rest
    | .crash => none

/-! Remote version resolver (second program in src/main.go, lines 276–347). -/

/-- strings.Split on a single separator character (both `"\n"` and `"/"` in
the source are single characters): `splitOnChar c "" = [""]`. -/
def splitOnChar (c : Char) : List Char → List (List Char)
  | [] => [[]]
  | x :: xs =>
    match splitOnChar c xs with
    | [] => [[x]]
    | h :: t => if x = c then [] :: h :: t else (x :: h) :: t

/-- Whether `pat` occurs at the start of `l`. -/
def startsWithL : List Char → List Char → Bool
  | [], _ => true
  | _ :: _, [] => false
  | p :: ps, x :: xs => p == x && startsWithL ps xs

/-- strings.Contains: whether `pat` occurs anywhere in `l`. -/
def containsL (pat : List Char) : List Char → Bool
  | [] => startsWithL pat []
  | x :: xs => startsWithL pat (x :: xs) || containsL pat xs

/-- ASCII letter class `[A-Za-z]` of the version regexes. -/
def isAsciiLetter (c : Char) : Bool :=
  (decide ('A' ≤ c) && decide (c ≤ 'Z')) || (decide ('a' ≤ c) && decide (c ≤ 'z'))

/-- RE2 `\d` class (ASCII digits). -/
def isAsciiDigit (c : Char) : Bool :=
  decide ('0' ≤ c) && decide (c ≤ '9')

/-- Consume `\d+` greedily; fails when the input does not start with a
digit.  Greediness is exact here: in every version regex a digit run is
followed by `.`, `_` or end of pattern, none of which is a digit. -/
def chompDigits : List Char → Option (List Char)
  | c :: rest => if isAsciiDigit c then some (rest.dropWhile isAsciiDigit) else none
  | [] => none

/-- Consume `[A-Za-z]+` greedily; in every version regex a letter run is
followed by `-`, `_` or a digit, none of which is a letter. -/
def chompLetters : List Char → Option (List Char)
  | c :: rest => if isAsciiLetter c then some (rest.dropWhile isAsciiLetter) else none
  | [] => none

/-- Consume one literal character. -/
def chompLit (c : Char) : List Char → Option (List Char)
  | x :: rest => if x = c then some rest else none
  | [] => none

/-- Consume an optional literal character (`v?`, `-?`, `_?`); the optional
character is never in the first-set of what follows, so consuming it when
present is exact. -/
def skipOpt (c : Char) : List Char → List Char
  | x :: rest => if x = c then rest else x :: rest
  | [] => []

/-- `\d+ sep \d+ sep \d+`. -/
def numTriple (sep : Char) (l : List Char) : Option (List Char) :=
  (((chompDigits l).bind (chompLit sep)).bind chompDigits).bind
    (fun l2 => (chompLit sep l2).bind chompDigits)

/-- `\d+ sep \d+`. -/
def numPair (sep : Char) (l : List Char) : Option (List Char) :=
  ((chompDigits l).bind (chompLit sep)).bind chompDigits

/-- Regex 1, `^v?\d+\.\d+\.\d+$`: whole-string match. -/
def rxSemverFull (l : List Char) : Bool :=
  numTriple '.' (skipOpt 'v' l) == some []

/-- Regex 2, `^v?\d+\.\d+$`: whole-string match. -/
def rxMajorMinorFull (l : List Char) : Bool :=
  numPair '.' (skipOpt 'v' l) == some []

/-- Core of regex 3, `[A-Za-z]+-?\d+_\d+_\d+` matched against an entire
suffix. -/
def tailWordUnderscoreTriple (l : List Char) : Bool :=
  match chompLetters l with
  | some l1 => numTriple '_' (skipOpt '-' l1) == some []
  | none => false

/-- Core of regex 4, `[A-Za-z]+-?\d+\.\d+\.\d+`. -/
def tailWordDashDotTriple (l : List Char) : Bool :=
  match chompLetters l with
  | some l1 => numTriple '.' (skipOpt '-' l1) == some []
  | none => false

/-- Core of regex 5, `[A-Za-z]+_?\d+\.\d+\.\d+`. -/
def tailWordUnderscoreDotTriple (l : List Char) : Bool :=
  match chompLetters l with
  | some l1 => numTriple '.' (skipOpt '_' l1) == some []
  | none => false

/-- Core of regex 6, `[A-Za-z]+_?\d+\.\d+`. -/
def tailWordUnderscoreDotPair (l : List Char) : Bool :=
  match chompLetters l with
  | some l1 => numPair '.' (skipOpt '_' l1) == some []
  | none => false

/-- Regex 7, `^(master|latest|stable|main)$`. -/
def rxKeyword (l : List Char) : Bool :=
  l == "master".toList || l == "latest".toList ||
  l == "stable".toList || l == "main".toList

/-- An end-anchored, start-unanchored regex (`pat$` with no `^`) matches a
string exactly when some suffix of the string matches `pat` entirely. -/
def suffixAny (m : List Char → Bool) : List Char → Bool
  | [] => m []
  | c :: rest => m (c :: rest) || suffixAny m rest

/-- The `versionRegexes` table (src/main.go lines 276–284), in source
order; regexes 1, 2 and 7 are anchored on both sides, regexes 3–6 only at
the end. -/
def versionRegexes : List (List Char → Bool) :=
  [ rxSemverFull, rxMajorMinorFull,
    suffixAny tailWordUnderscoreTriple, suffixAny tailWordDashDotTriple,
    suffixAny tailWordUnderscoreDotTriple, suffixAny tailWordUnderscoreDotPair,
    rxKeyword ]

/-- `validateVersionName` (src/main.go lines 305–312): true when any of the
version regexes matches. -/
def validateVersionName (version : String) : Bool :=
  versionRegexes.any (fun rx => rx version.toList)

/-- Loop body of `parseRemoteLsTags` (src/main.go lines 291–300) with its
accumulating `tags` slice: a line containing `refs/tags/` or `refs/heads/`
contributes its final `/`-delimited component when it validates. -/
def parseLoop : List (List Char) → List String → List String
  | [], acc => acc
  | line :: rest, acc =>
    if containsL "refs/tags/".toList line || containsL "refs/heads/".toList line then
      let tag := String.mk ((splitOnChar '/' line).getLastD [])
      if validateVersionName tag then parseLoop rest (acc ++ [tag])
      else parseLoop rest acc
    else parseLoop rest acc

/-- `parseRemoteLsTags` (src/main.go lines 287–302). -/
def parseRemoteLsTags (output : String) : List String :=
  parseLoop (splitOnChar '\n' output.toList) []

/-- Modelled from the spec wording for the refinement comparison of claim
C4: the qualifying tags are the final `/`-delimited components of the lines
under a tags or heads namespace that pass classification, in the order the
remote listed them. -/
def specQualifyingTags (output : String) : List String :=
  (splitOnChar '\n' output.toList).filterMap (fun line =>
    if containsL "refs/tags/".toList line || containsL "refs/heads/".toList line then
      let tag := String.mk ((splitOnChar '/' line).getLastD [])
      if validateVersionName tag then some tag else none
    else none)

/-- Outcome of the external `git ls-remote` invocation: a non-zero exit
(with whatever combined output), or success with the captured output. -/
inductive RemoteOutcome where
  | failure (out : String)
  | success (out : String)

/-- `getRemoteVersions` (src/main.go lines 316–347), with the external
process outcome passed explicitly.  Returns the updated package together
with the function's returned `error` value (always `none` in the source).
An empty `GitURL` skips the remote entirely, so the outcome argument is
unused on that path. -/
def getRemoteVersions (pkg : Package) (remote : RemoteOutcome) :
    Package × Option String :=
  if pkg.gitURL ≠ "" then
    match remote with
    | .failure _ => ({ pkg with versions := [] }, none)
    | .success out =>
      let tags := parseRemoteLsTags out
      if tags.length > 0 then
        ({ pkg with version := tags.getLastD "", versions := tags }, none)
      else
        ({ pkg with versions := [] }, none)
  else
    ({ pkg with versions := [] }, none)

/-! Catalog store and HTTP handlers (src/unnamed/part_001).  The SQLite
tables are modelled as lists of rows in insertion order; `db.Exec` /
`db.Query` failures are modelled by oracles deciding which statement fails,
so that the handlers' error paths are explicit. -/

/-- One row of the `packages` table (the nine persisted columns). -/
structure PkgRow where
  name : String
  version : String
  description : String
  gitURL : String
  license : String
  supports : String
  stars : Int
  lastModified : String
  cmakeTarget : String
deriving DecidableEq

/-- One row of the `dependencies` table. -/
structure DepRow where
  pkg : String
  dep : String
deriving DecidableEq

/-- One row of the `features` table. -/
structure FeatRow where
  pkg : String
  feat : String
  desc : String
deriving DecidableEq

/-- One row of the `feature_dependencies` table. -/
structure FeatDepRow where
  pkg : String
  feat : String
  dep : String
deriving DecidableEq

/-- The relational store: the four tables, rows in insertion order. -/
structure DB where
  packages : List PkgRow
  dependencies : List DepRow
  features : List FeatRow
  featureDeps : List FeatDepRow
deriving DecidableEq

/-- The store with no rows. -/
def emptyDB : DB := ⟨[], [], [], []⟩

/-- The nine columns `createPackage` writes for a package. -/
def rowOf (p : Package) : PkgRow :=
  ⟨p.name, p.version, p.description, p.gitURL, p.license, p.supports,
   p.stars, p.lastModified, p.cmakeTarget⟩

/-- Failure oracle for the four `db.Exec` INSERT statements, one predicate
per table, applied to the values the statement binds. -/
structure ExecOracle where
  pkgExecFail : PkgRow → Bool
  depExecFail : String → String → Bool
  featExecFail : String → String → String → Bool
  featDepExecFail : String → String → String → Bool

/-- The oracle under which every INSERT succeeds. -/
def noFailExec : ExecOracle :=
  ⟨fun _ => false, fun _ _ => false, fun _ _ _ => false, fun _ _ _ => false⟩

/-- Failure oracle for the SELECT statements issued by the read path. -/
structure QueryOracle where
  pkgQueryFail : Bool
  depQueryFail : String → Bool
  featQueryFail : String → Bool
  featDepQueryFail : String → String → Bool

/-- The oracle under which every SELECT succeeds. -/
def noFailQuery : QueryOracle :=
  ⟨false, fun _ => false, fun _ => false, fun _ _ => false⟩

/-- `insertDependencies` (part_001 lines 145–152): one INSERT per
dependency; a failing row is logged and skipped, the loop continues. -/
def insertDependencies (o : ExecOracle) (pkgName : String) :
    List String → DB → DB
  | [], db => db
  | d :: rest, db =>
    if o.depExecFail pkgName d then insertDependencies o pkgName rest db
    else insertDependencies o pkgName rest
      { db with dependencies := db.dependencies ++ [⟨pkgName, d⟩] }

/-- Inner loop of `insertFeatures`: one INSERT per feature dependency; a
failing row is logged and skipped. -/
def insertFeatureDeps (o : ExecOracle) (pkgName featName : String) :
    List String → DB → DB
  | [], db => db
  | d :: rest, db =>
    if o.featDepExecFail pkgName featName d then
      insertFeatureDeps o pkgName featName rest db
    else insertFeatureDeps o pkgName featName rest
      { db with featureDeps := db.featureDeps ++ [⟨pkgName, featName, d⟩] }

/-- `insertFeatures` (part_001 lines 154–169): a failing feature row is
logged and `continue`d past (its feature-dependency rows are not
attempted); otherwise the feature row and then its dependency rows are
written. -/
def insertFeatures (o : ExecOracle) (pkgName : String) :
    List (String × Feature) → DB → DB
  | [], db => db
  | (fn, f) :: rest, db =>
    if o.featExecFail pkgName fn f.description then
      insertFeatures o pkgName rest db
    else
      insertFeatures o pkgName rest
        (insertFeatureDeps o pkgName fn f.dependencies
          { db with features := db.features ++ [⟨pkgName, fn, f.description⟩] })

/-- Result of the store-level insert: the package-row INSERT failed (the
handler answers 500 and nothing else is written), or the resulting store. -/
inductive InsertResult where
  | aborted
  | done (db : DB)
deriving DecidableEq

/-- Store-level body of `createPackage` (part_001 lines 124–143) after a
successful decode: the package row first — its failure aborts the whole
operation — then best-effort fan-out over dependency, feature and
feature-dependency rows. -/
def insertPackage (o : ExecOracle) (db : DB) (pkg : Package) : InsertResult :=
  if o.pkgExecFail (rowOf pkg) then .aborted
  else
    .done (insertFeatures o pkg.name pkg.features
      (insertDependencies o pkg.name pkg.dependencies
        { db with packages := db.packages ++ [rowOf pkg] }))

/-- HTTP outcome of `createPackage`. -/
inductive CreateOut where
  | badRequest
  | serverErr
  | created (db : DB)
deriving DecidableEq

/-- The `createPackage` handler (part_001 lines 124–143): 400 exactly when
the body does not decode as a `Package` (`body = none`); otherwise the
insert runs, 500 when the package row fails, else 201. -/
def createPackage (o : ExecOracle) (db : DB) (body : Option Package) :
    CreateOut :=
  match body with
  | none => .badRequest
  | some pkg =>
    match insertPackage o db pkg with
    | .aborted => .serverErr
    | .done db2 => .created db2

/-- `getPackageDependencies` (part_001 lines 69–84): a failing SELECT is
swallowed and yields the empty list; otherwise the dependency names for the
package, in row order. -/
def getPackageDependencies (o : QueryOracle) (db : DB) (packageName : String) :
    List String :=
  if o.depQueryFail packageName then []
  else (db.dependencies.filter (fun r => r.pkg == packageName)).map (·.dep)

/-- `getFeatureDependencies` (part_001 lines 107–122): a failing SELECT is
swallowed and yields the empty list. -/
def getFeatureDependencies (o : QueryOracle) (db : DB)
    (packageName featureName : String) : List String :=
  if o.featDepQueryFail packageName featureName then []
  else
    (db.featureDeps.filter
      (fun r => r.pkg == packageName && r.feat == featureName)).map (·.dep)

/-- `getPackageFeatures` (part_001 lines 86–105): a failing SELECT is
swallowed and yields an empty map; otherwise each feature row is rebuilt
with its own dependency query and `RequiredFeatures` hard-coded to the
empty slice. -/
def getPackageFeatures (o : QueryOracle) (db : DB) (packageName : String) :
    List (String × Feature) :=
  if o.featQueryFail packageName then []
  else
    (db.features.filter (fun r => r.pkg == packageName)).map
      (fun r => (r.feat,
        { description := r.desc,
          requiredFeatures := [],
          dependencies := getFeatureDependencies o db packageName r.feat }))

/-- HTTP outcome of `getPackage`. -/
inductive GetOut where
  | badRequest
  | notFound
  | serverErr
  | found (pkg : Package)
deriving DecidableEq

/-- The `getPackage` handler (part_001 lines 190–215): 400 on a missing
name, 500 when the package-row SELECT fails, 404 when no row matches; on
success the package is assembled from the row plus the dependency and
feature sub-queries (whose own failures are swallowed by the helpers). -/
def getPackage (o : QueryOracle) (db : DB) (packageName : String) : GetOut :=
  if packageName == "" then .badRequest
  else if o.pkgQueryFail then .serverErr
  else
    match db.packages.find? (fun r => r.name == packageName) with
    | none => .notFound
    | some row =>
      .found { name := row.name, version := row.version, tag := "",
               versions := [], description := row.description,
               gitURL := row.gitURL, license := row.license,
               supports := row.supports, stars := row.stars,
               lastModified := row.lastModified,
               dependencies := getPackageDependencies o db packageName,
               features := getPackageFeatures o db packageName,
               cmakeTarget := row.cmakeTarget }

/-- HTTP outcome of `listPackages`. -/
inductive ListOut where
  | serverErr
  | listed (pkgs : List Package)
deriving DecidableEq

/-- The `listPackages` handler (part_001 lines 43–67): 500 when the
packages SELECT fails; otherwise every row is assembled the same way as in
`getPackage`, keyed by the row's own name. -/
def listPackages (o : QueryOracle) (db : DB) : ListOut :=
  if o.pkgQueryFail then .serverErr
  else
    .listed (db.packages.map (fun row =>
      { name := row.name, version := row.version, tag := "", versions := [],
        description := row.description, gitURL := row.gitURL,
        license := row.license, supports := row.supports, stars := row.stars,
        lastModified := row.lastModified,
        dependencies := getPackageDependencies o db row.name,
        features := getPackageFeatures o db row.name,
        cmakeTarget := row.cmakeTarget }))

/-! Spec-side characterizations and concrete inputs used by the claims. -/

/-- Modelled from the spec for claim C3: what a feature-dependency element
contributes to the feature's `dependencies` — a bare string contributes
itself, an object contributes its `name` unless that name equals the owning
package's name. -/
def depPick (pkgName : String) : JVal → Option String
  | .str s => some s
  | .obj fields =>
    match jLookup fields "name" with
    | some (.str nm) => if nm == pkgName then none else some nm
    | _ => none
  | _ => none

/-- Modelled from the spec for claim C3: what a feature-dependency element
contributes to the feature's `required_features` — the feature's own name,
exactly for an object whose `name` equals the owning package's name. -/
def reqPick (pkgName featName : String) : JVal → Option String
  | .obj fields =>
    match jLookup fields "name" with
    | some (.str nm) => if nm == pkgName then some featName else none
    | _ => none
  | _ => none

/-- Every object element of the list carries a string `name` field (the
condition under which the Go type assertions in the dependency loops cannot
panic). -/
def depsWellFormed (l : List JVal) : Bool :=
  l.all (fun d =>
    match d with
    | .obj fields =>
      match jLookup fields "name" with
      | some (.str _) => true
      | _ => false
    | _ => true)

/-- C3: for a package named `N` and a feature named `F`, the
feature-dependency loop sends an object whose `name` equals `N` to
`required_features` as `F` itself, every other object's `name` and every
bare string to `dependencies`, preserving order (elements of any other
shape are skipped). -/
theorem c3_self_reference (N F : String) (l : List JVal)
    (h : depsWellFormed l = true) :
    processFeatureDeps N F l =
      .ok (l.filterMap (depPick N), l.filterMap (reqPick N F)) := by
  induction l with
  | nil => rfl
  | cons d rest ih =>
    rw [depsWellFormed, List.all_cons, Bool.and_eq_true] at h
    have ih2 := ih h.2
    cases d with
    | str s => simp [processFeatureDeps, ih2, List.filterMap_cons, depPick, reqPick]
    | num n => simp [processFeatureDeps, ih2, List.filterMap_cons, depPick, reqPick]
    | boolV b => simp [processFeatureDeps, ih2, List.filterMap_cons, depPick, reqPick]
    | null => simp [processFeatureDeps, ih2, List.filterMap_cons, depPick, reqPick]
    | arr es => simp [processFeatureDeps, ih2, List.filterMap_cons, depPick, reqPick]
    | obj fields =>
      have h1 : (match jLookup fields "name" with
                 | some (JVal.str _) => true
                 | _ => false) = true := h.1
      simp only [processFeatureDeps, List.filterMap_cons, depPick, reqPick]
      cases hl : jLookup fields "name" with
      | none => simp [hl] at h1
      | some v =>
        cases v with
        | str nm =>
          simp only [ih2]
          by_cases he : (nm == N) = true
          · simp [he]
          · simp [he]
        | num n => simp [hl] at h1
        | boolV b => simp [hl] at h1
        | null => simp [hl] at h1
        | arr es => simp [hl] at h1
        | obj fs => simp [hl] at h1

/-- Feature-dependency list of the spec's self-reference example, for the
owning package `"p"` and the feature `"x"`. -/
def exSelfDeps : List JVal := [.obj [("name", .str "p")], .str "y"]

/-- C3 witness: the spec's example — feature `"x"` of package `"p"` with
dependencies `[{"name":"p"}, "y"]` yields `dependencies == ["y"]` and
`required_features == ["x"]`. -/
theorem c3_self_reference_witness :
    depsWellFormed exSelfDeps = true ∧
    processFeatureDeps "p" "x" exSelfDeps = .ok (["y"], ["x"]) :=
  ⟨by decide, (c3_self_reference "p" "x" exSelfDeps (by decide)).trans (by decide)⟩

/-- C6: `validateVersionName` accepts a candidate exactly when one of the
version-shape grammars in `versionRegexes` matches it, and on the spec's
examples it accepts `"v1.2.3"`, `"1.2"`, `"lib-1_2_3"` and `"stable"` and
rejects `"foo-bar"` and `"v1"`. -/
theorem c6_tag_classification :
    (∀ s : String,
      validateVersionName s = true ↔ ∃ rx ∈ versionRegexes, rx s.toList = true) ∧
    validateVersionName "v1.2.3" = true ∧
    validateVersionName "1.2" = true ∧
    validateVersionName "lib-1_2_3" = true ∧
    validateVersionName "stable" = true ∧
    validateVersionName "foo-bar" = false ∧
    validateVersionName "v1" = false := by
  refine ⟨fun s => ?_, by decide, by decide, by decide, by decide, by decide, by decide⟩
  simp [validateVersionName, List.any_eq_true]

/-- C6 witness: the classification equivalence applied at a concrete
candidate. -/
theorem c6_tag_classification_witness :
    validateVersionName "v1.2.3" = true ↔
      ∃ rx ∈ versionRegexes, rx "v1.2.3".toList = true :=
  c6_tag_classification.1 "v1.2.3"

/-- A raw manifest entry whose dependency list holds an object without a
`name` field. -/
def rawMissingName : RawPackage :=
  { name := "p", version := "1", description := some (.str "d"),
    gitURL := "", license := "MIT", supports := "", stars := 0,
    lastModified := "t",
    dependencies := some (.arr [.obj [("platform", .str "windows")]]),
    features := none }

/-- A raw manifest entry whose dependency list holds a number (a shape that
is neither string nor object) followed by a normal string dependency. -/
def rawOddShape : RawPackage :=
  { name := "p", version := "1", description := some (.str "d"),
    gitURL := "", license := "MIT", supports := "", stars := 0,
    lastModified := "t",
    dependencies := some (.arr [.num 5, .str "x"]),
    features := none }

/-- C2: the claim is right about the intent but the code is wrong — on an
object dependency with a missing (or non-string) `name` the unchecked
type assertion `depType["name"].(string)` panics and aborts the entire run
(`TResult.crash`), instead of returning a decode error for that one
package; an element of any other shape is indeed skipped non-fatally, as
the second conjunct shows. -/
theorem c2_missing_name_panics :
    Transform rawMissingName = TResult.crash ∧
    runBatch [rawMissingName] = none ∧
    Transform rawOddShape =
      TResult.ok
        { name := "p", version := "1", tag := "", versions := [],
          description := "d", gitURL := "", license := "MIT", supports := "",
          stars := 0, lastModified := "t", dependencies := ["x"],
          features := [], cmakeTarget := "" } := by
  decide

/-- Loop-to-`filterMap` refinement for `parseRemoteLsTags`: the
accumulator loop produces exactly the qualifying tags in listing order. -/
theorem parseLoop_eq_filterMap :
    ∀ (lines : List (List Char)) (acc : List String),
    parseLoop lines acc = acc ++ lines.filterMap (fun line =>
      if containsL "refs/tags/".toList line || containsL "refs/heads/".toList line then
        let tag := String.mk ((splitOnChar '/' line).getLastD [])
        if validateVersionName tag then some tag else none
      else none)
  | [], acc => by simp [parseLoop]
  | line :: rest, acc => by
    simp only [parseLoop, List.filterMap_cons]
    by_cases h1 : (containsL "refs/tags/".toList line ||
                   containsL "refs/heads/".toList line) = true
    · rw [if_pos h1, if_pos h1]
      by_cases h2 :
        validateVersionName (String.mk ((splitOnChar '/' line).getLastD [])) = true
      · rw [if_pos h2, if_pos h2, parseLoop_eq_filterMap rest]
        simp
      · rw [if_neg h2, if_neg h2, parseLoop_eq_filterMap rest]
    · rw [if_neg h1, if_neg h1, parseLoop_eq_filterMap rest]

/-- C4: for every ls-remote output the parsed tag sequence is exactly the
qualifying tags in the order the remote listed them (no re-sorting), and
when that sequence is non-empty `getRemoteVersions` sets the package's
current version to its last element and `versions` to the whole
sequence. -/
theorem c4_version_selection (pkg : Package) (out : String)
    (h1 : pkg.gitURL ≠ "") (h2 : parseRemoteLsTags out ≠ []) :
    parseRemoteLsTags out = specQualifyingTags out ∧
    getRemoteVersions pkg (.success out) =
      ({ pkg with version := (parseRemoteLsTags out).getLastD "",
                  versions := parseRemoteLsTags out }, none) := by
  constructor
  · rw [parseRemoteLsTags, specQualifyingTags, parseLoop_eq_filterMap]
    simp
  · unfold getRemoteVersions; rw [if_pos h1]
    have hlen : (parseRemoteLsTags out).length > 0 := List.length_pos.mpr h2
    simp [hlen]

/-- The spec's version-selection example output, lines in listing order. -/
def exLsOut : String := "refs/tags/v1.0.0\nrefs/tags/v1.1.0\nrefs/heads/main"

/-- A package with a non-empty git URL. -/
def pkgWithGit : Package :=
  { name := "p", version := "0", tag := "", versions := [], description := "",
    gitURL := "u", license := "", supports := "", stars := 0,
    lastModified := "", dependencies := [], features := [], cmakeTarget := "" }

/-- C4 witness: the spec's example — refs listed in order
`refs/tags/v1.0.0`, `refs/tags/v1.1.0`, `refs/heads/main` give
`versions == ["v1.0.0", "v1.1.0", "main"]` and current version `"main"`. -/
theorem c4_version_selection_witness :
    pkgWithGit.gitURL ≠ "" ∧
    parseRemoteLsTags exLsOut ≠ [] ∧
    parseRemoteLsTags exLsOut = ["v1.0.0", "v1.1.0", "main"] ∧
    parseRemoteLsTags exLsOut = specQualifyingTags exLsOut ∧
    getRemoteVersions pkgWithGit (.success exLsOut) =
      ({ pkgWithGit with version := "main",
                         versions := ["v1.0.0", "v1.1.0", "main"] }, none) := by
  have h := c4_version_selection pkgWithGit exLsOut (by decide) (by decide)
  exact ⟨by decide, by decide, by decide, h.1, by rw [h.2]; decide⟩

/-- C5 (amended): the resolver never fails its caller — an empty git URL
returns empty versions at once with a result independent of the remote, a
failing listing or an output with no qualifying tag degrades to
`versions == []`, and the returned error is always `none`; the package's
`version` field, however, is left unchanged on those paths rather than
being reset to `""`. -/
theorem c5_resolver_never_fails (pkg : Package) (r : RemoteOutcome) (out : String) :
    (pkg.gitURL = "" → getRemoteVersions pkg r = ({ pkg with versions := [] }, none)) ∧
    (pkg.gitURL ≠ "" →
      getRemoteVersions pkg (.failure out) = ({ pkg with versions := [] }, none)) ∧
    (pkg.gitURL ≠ "" → parseRemoteLsTags out = [] →
      getRemoteVersions pkg (.success out) = ({ pkg with versions := [] }, none)) ∧
    (getRemoteVersions pkg r).2 = none := by
  refine ⟨fun h => ?_, fun h => ?_, fun h hq => ?_, ?_⟩
  · unfold getRemoteVersions; rw [if_neg (by simp [h])]
  · unfold getRemoteVersions; rw [if_pos h]
  · unfold getRemoteVersions; rw [if_pos h]
    simp [hq]
  · unfold getRemoteVersions
    by_cases h : pkg.gitURL ≠ ""
    · rw [if_pos h]
      cases r with
      | failure o => rfl
      | success o => by_cases hl : (parseRemoteLsTags o).length > 0 <;> simp [hl]
    · rw [if_neg h]

/-- A package already carrying a manifest version `"0.9"` and a git URL. -/
def pkgPresetVersion : Package :=
  { name := "p", version := "0.9", tag := "", versions := [], description := "",
    gitURL := "u", license := "", supports := "", stars := 0,
    lastModified := "", dependencies := [], features := [], cmakeTarget := "" }

/-- C5 counterexample: on a failing listing the code empties `versions` and
propagates no error, but it leaves the package's version field at `"0.9"`
instead of degrading it to `""` as the claim states. -/
theorem c5_version_not_reset :
    getRemoteVersions pkgPresetVersion (.failure "boom") =
      ({ pkgPresetVersion with versions := [] }, none) ∧
    (getRemoteVersions pkgPresetVersion (.failure "boom")).1.version = "0.9" ∧
    pkgPresetVersion.gitURL ≠ "" ∧
    ¬ (getRemoteVersions pkgPresetVersion (.failure "boom")).1.version = "" := by
  decide

/-- C5 witness: the amended statement applied to concrete packages — one
with no git URL (same result whatever the remote would have answered), one
whose listing fails, and one whose output has no qualifying tag. -/
theorem c5_resolver_witness :
    (let pkgNoURL : Package :=
      { pkgPresetVersion with gitURL := "" };
     getRemoteVersions pkgNoURL (.success "refs/tags/v1.0.0") =
       ({ pkgNoURL with versions := [] }, none) ∧
     getRemoteVersions pkgNoURL (.failure "boom") =
       ({ pkgNoURL with versions := [] }, none)) ∧
    getRemoteVersions pkgPresetVersion (.failure "boom") =
      ({ pkgPresetVersion with versions := [] }, none) ∧
    getRemoteVersions pkgPresetVersion (.success "refs/tags/foo-bar") =
      ({ pkgPresetVersion with versions := [] }, none) ∧
    (getRemoteVersions pkgPresetVersion (.failure "boom")).2 = none := by
  refine ⟨⟨?_, ?_⟩, ?_, ?_, ?_⟩
  · exact (c5_resolver_never_fails _ _ "").1 rfl
  · exact (c5_resolver_never_fails _ _ "").1 rfl
  · exact (c5_resolver_never_fails pkgPresetVersion (.failure "boom") "boom").2.1 (by decide)
  · exact (c5_resolver_never_fails pkgPresetVersion (.failure "boom")
      "refs/tags/foo-bar").2.2.1 (by decide) (by decide)
  · exact (c5_resolver_never_fails pkgPresetVersion (.failure "boom") "").2.2.2

/-- Decoding a plain string list succeeds and yields the list itself. -/
theorem asStringList_map_str (l : List String) :
    asStringList (l.map JVal.str) = some l := by
  induction l with
  | nil => rfl
  | cons s rest ih => simp [asStringList, ih]

/-- C7: a raw entry whose `Description` is neither a string nor a string
sequence makes `Transform` return a decode error (given its dependency list
decodes), the ingestion loop drops exactly that entry while the rest of the
batch continues, a string description decodes as itself, and a
string-sequence description decodes as the `", "`-join. -/
theorem c7_description_fallback (rp : RawPackage) (mx : List JVal)
    (dl : List String)
    (h1 : decodeMixedList rp.dependencies = some mx)
    (h2 : processDeps mx = .ok dl)
    (h3 : decodeDescription rp.description = none) :
    Transform rp = .err ∧
    (∀ xs ys, runBatch (xs ++ rp :: ys) = runBatch (xs ++ ys)) ∧
    (∀ s, decodeDescription (some (.str s)) = some s) ∧
    (∀ l, decodeDescription (some (.arr (l.map JVal.str))) = some (joinCS l)) := by
  have hT : Transform rp = .err := by
    simp only [Transform, h1, h2, h3]
  refine ⟨hT, fun xs ys => ?_, fun s => rfl, fun l => ?_⟩
  · induction xs with
    | nil => simp [runBatch, hT]
    | cons x tail ih =>
      simp only [List.cons_append]
      cases hx : Transform x with
      | ok p => simp [runBatch, hx, ih]
      | err => simp [runBatch, hx, ih]
      | crash => simp [runBatch, hx]
  · simp [decodeDescription, asStringList_map_str]

/-- A raw entry whose `Description` is a number, so that both description
decodes fail while the dependency list is fine. -/
def rawBadDesc : RawPackage :=
  { name := "q", version := "1", description := some (.num 7),
    gitURL := "", license := "", supports := "", stars := 0,
    lastModified := "", dependencies := some (.arr [.str "a"]),
    features := none }

/-- A raw entry that transforms cleanly. -/
def rawClean : RawPackage :=
  { name := "r", version := "2", description := some (.str "ok"),
    gitURL := "", license := "", supports := "", stars := 0,
    lastModified := "", dependencies := some (.arr []),
    features := none }

/-- C7 witness: the bad-description entry is dropped from the concrete
batch while its neighbours survive, and the two description decodes behave
as claimed on concrete values. -/
theorem c7_description_fallback_witness :
    decodeMixedList rawBadDesc.dependencies = some [JVal.str "a"] ∧
    processDeps [JVal.str "a"] = .ok ["a"] ∧
    decodeDescription rawBadDesc.description = none ∧
    Transform rawBadDesc = .err ∧
    runBatch [rawClean, rawBadDesc, rawClean] = runBatch [rawClean, rawClean] ∧
    decodeDescription (some (.str "hi")) = some "hi" ∧
    decodeDescription (some (.arr [JVal.str "a", JVal.str "b"])) = some "a, b" := by
  have h := c7_description_fallback rawBadDesc [JVal.str "a"] ["a"]
    rfl rfl rfl
  refine ⟨rfl, rfl, rfl, h.1, ?_, h.2.2.1 "hi", ?_⟩
  · exact h.2.1 [rawClean] [rawClean]
  · exact (h.2.2.2 ["a", "b"]).trans (by decide)

/-- The dependency rows surviving the fan-out for a dependency list. -/
def depRowsOf (o : ExecOracle) (pkgName : String) (deps : List String) :
    List DepRow :=
  (deps.filter (fun d => !(o.depExecFail pkgName d))).map (fun d => ⟨pkgName, d⟩)

/-- The feature-dependency rows surviving the fan-out for one feature. -/
def featDepRowsOf (o : ExecOracle) (pkgName featName : String)
    (deps : List String) : List FeatDepRow :=
  (deps.filter (fun d => !(o.featDepExecFail pkgName featName d))).map
    (fun d => ⟨pkgName, featName, d⟩)

/-- The features whose own row INSERT does not fail. -/
def survivingFeats (o : ExecOracle) (pkgName : String)
    (feats : List (String × Feature)) : List (String × Feature) :=
  feats.filter (fun x => !(o.featExecFail pkgName x.1 x.2.description))

/-- The feature rows surviving the fan-out. -/
def featRowsOf (o : ExecOracle) (pkgName : String)
    (feats : List (String × Feature)) : List FeatRow :=
  (survivingFeats o pkgName feats).map (fun x => ⟨pkgName, x.1, x.2.description⟩)

/-- All feature-dependency rows surviving the fan-out: features skipped by
a failing feature row contribute none of theirs. -/
def allFeatDepRowsOf (o : ExecOracle) (pkgName : String)
    (feats : List (String × Feature)) : List FeatDepRow :=
  (survivingFeats o pkgName feats).flatMap
    (fun x => featDepRowsOf o pkgName x.1 x.2.dependencies)

/-- Characterization of the dependency-insert loop: exactly the rows whose
INSERT does not fail are appended, in order. -/
theorem insertDependencies_eq (o : ExecOracle) (pkgName : String) :
    ∀ (deps : List String) (db : DB),
    insertDependencies o pkgName deps db =
      { db with dependencies := db.dependencies ++ depRowsOf o pkgName deps }
  | [], db => by simp [insertDependencies, depRowsOf]
  | d :: rest, db => by
    cases h : o.depExecFail pkgName d with
    | true =>
      rw [insertDependencies, if_pos h, insertDependencies_eq o pkgName rest db]
      simp [depRowsOf, List.filter_cons, h]
    | false =>
      rw [insertDependencies, if_neg (by simp [h]),
        insertDependencies_eq o pkgName rest]
      simp [depRowsOf, List.filter_cons, h]

/-- Characterization of the feature-dependency-insert loop. -/
theorem insertFeatureDeps_eq (o : ExecOracle) (pkgName featName : String) :
    ∀ (deps : List String) (db : DB),
    insertFeatureDeps o pkgName featName deps db =
      { db with featureDeps :=
          db.featureDeps ++ featDepRowsOf o pkgName featName deps }
  | [], db => by simp [insertFeatureDeps, featDepRowsOf]
  | d :: rest, db => by
    cases h : o.featDepExecFail pkgName featName d with
    | true =>
      rw [insertFeatureDeps, if_pos h,
        insertFeatureDeps_eq o pkgName featName rest db]
      simp [featDepRowsOf, List.filter_cons, h]
    | false =>
      rw [insertFeatureDeps, if_neg (by simp [h]),
        insertFeatureDeps_eq o pkgName featName rest]
      simp [featDepRowsOf, List.filter_cons, h]

/-- Characterization of the feature-insert loop: a feature whose own row
fails is skipped together with its dependency rows; every other feature's
row and surviving dependency rows are appended, in order. -/
theorem insertFeatures_eq (o : ExecOracle) (pkgName : String) :
    ∀ (feats : List (String × Feature)) (db : DB),
    insertFeatures o pkgName feats db =
      { db with
        features := db.features ++ featRowsOf o pkgName feats,
        featureDeps := db.featureDeps ++ allFeatDepRowsOf o pkgName feats }
  | [], db => by
    simp [insertFeatures, featRowsOf, allFeatDepRowsOf, survivingFeats]
  | (fn, f) :: rest, db => by
    cases h : o.featExecFail pkgName fn f.description with
    | true =>
      rw [insertFeatures, if_pos h, insertFeatures_eq o pkgName rest db]
      simp [featRowsOf, allFeatDepRowsOf, survivingFeats, List.filter_cons, h]
    | false =>
      rw [insertFeatures, if_neg (by simp [h]), insertFeatureDeps_eq,
        insertFeatures_eq o pkgName rest]
      simp [featRowsOf, allFeatDepRowsOf, survivingFeats, List.filter_cons, h,
        List.flatMap_cons, List.append_assoc]

/-- C8: the package row is written first and its failure aborts the whole
insert with an error before any other row is attempted; afterwards every
individual dependency, feature and feature-dependency row failure is
skipped while all sibling rows still persist — the resulting store holds
exactly the non-failing rows. -/
theorem c8_best_effort_fanout (o : ExecOracle) (db : DB) (pkg : Package) :
    (o.pkgExecFail (rowOf pkg) = true → insertPackage o db pkg = .aborted) ∧
    (o.pkgExecFail (rowOf pkg) = false → insertPackage o db pkg = .done
      { packages := db.packages ++ [rowOf pkg],
        dependencies := db.dependencies ++ depRowsOf o pkg.name pkg.dependencies,
        features := db.features ++ featRowsOf o pkg.name pkg.features,
        featureDeps := db.featureDeps ++ allFeatDepRowsOf o pkg.name pkg.features }) := by
  constructor
  · intro h
    rw [insertPackage, if_pos h]
  · intro h
    rw [insertPackage, if_neg (by simp [h]), insertDependencies_eq,
      insertFeatures_eq]

/-- An oracle failing exactly the dependency row `"b"`, the feature row
`"f"` and the feature-dependency row `"q"`. -/
def oracleRowFails : ExecOracle :=
  ⟨fun _ => false, fun _ d => d == "b", fun _ fn _ => fn == "f",
   fun _ _ d => d == "q"⟩

/-- An oracle failing the package row itself. -/
def oraclePkgRowFails : ExecOracle :=
  ⟨fun _ => true, fun _ _ => false, fun _ _ _ => false, fun _ _ _ => false⟩

/-- A package exercising the fan-out: three dependencies, two features with
feature dependencies. -/
def pkgFanout : Package :=
  { name := "p", version := "1", tag := "", versions := [],
    description := "d", gitURL := "u", license := "L", supports := "",
    stars := 3, lastModified := "t",
    dependencies := ["a", "b", "c"],
    features := [("f", ⟨"df", [], ["x"]⟩), ("g", ⟨"dg", [], ["q", "r"]⟩)],
    cmakeTarget := "ct" }

/-- C8 witness: with the package row failing the insert aborts; with
individual row failures (`"b"`, feature `"f"`, feature dependency `"q"`)
the siblings `"a"`, `"c"`, feature `"g"` and its dependency `"r"` all
persist. -/
theorem c8_best_effort_fanout_witness :
    insertPackage oraclePkgRowFails emptyDB pkgFanout = .aborted ∧
    insertPackage oracleRowFails emptyDB pkgFanout = .done
      ⟨[rowOf pkgFanout], [⟨"p", "a"⟩, ⟨"p", "c"⟩], [⟨"p", "g", "dg"⟩],
       [⟨"p", "g", "r"⟩]⟩ := by
  refine ⟨(c8_best_effort_fanout oraclePkgRowFails emptyDB pkgFanout).1 rfl, ?_⟩
  rw [(c8_best_effort_fanout oracleRowFails emptyDB pkgFanout).2 rfl]
  decide

/-- C10: the create handler answers 400 exactly when the body fails to
decode as a `Package`; every decodable body — its `name` included, empty or
not, is never inspected — proceeds to the insert, and when the package-row
insert succeeds the handler answers 201 regardless of any dependency or
feature row failures. -/
theorem c10_create_no_validation (o : ExecOracle) (db : DB)
    (body : Option Package) :
    (createPackage o db body = .badRequest ↔ body = none) ∧
    (∀ pkg, body = some pkg → o.pkgExecFail (rowOf pkg) = false →
      ∃ db2, createPackage o db body = .created db2) := by
  constructor
  · cases body with
    | none => simp [createPackage]
    | some pkg =>
      cases h : insertPackage o db pkg with
      | aborted => simp [createPackage, h]
      | done db2 => simp [createPackage, h]
  · intro pkg hb hf
    subst hb
    cases h : insertPackage o db pkg with
    | aborted =>
      rw [insertPackage, if_neg (by simp [hf])] at h
      simp at h
    | done db2 => exact ⟨db2, by simp [createPackage, h]⟩

/-- A decodable request body whose package name is the empty string. -/
def pkgEmptyName : Package :=
  { name := "", version := "", tag := "", versions := [], description := "",
    gitURL := "", license := "", supports := "", stars := 0,
    lastModified := "", dependencies := [], features := [],
    cmakeTarget := "" }

/-- C10 witness: an undecodable body is answered 400 and a decodable body
with an empty name is answered 201. -/
theorem c10_create_no_validation_witness :
    createPackage noFailExec emptyDB none = CreateOut.badRequest ∧
    (∃ db2, createPackage noFailExec emptyDB (some pkgEmptyName) =
      .created db2) ∧
    noFailExec.pkgExecFail (rowOf pkgEmptyName) = false :=
  ⟨(c10_create_no_validation noFailExec emptyDB none).1.mpr rfl,
   (c10_create_no_validation noFailExec emptyDB (some pkgEmptyName)).2
     pkgEmptyName rfl rfl,
   rfl⟩

/-- A store with one package `"a"` that owns one dependency row `"b"`. -/
def dbOnePkg : DB :=
  ⟨[⟨"a", "1", "d", "u", "L", "", 0, "t", "ct"⟩], [⟨"a", "b"⟩], [], []⟩

/-- A query oracle under which every dependency sub-query fails while the
packages query succeeds. -/
def oracleDepQueryFails : QueryOracle :=
  ⟨false, fun _ => true, fun _ => false, fun _ _ => false⟩

/-- A query oracle under which the packages query itself fails. -/
def oraclePkgQueryFails : QueryOracle :=
  ⟨true, fun _ => false, fun _ => false, fun _ _ => false⟩

/-- C9 counterexample: with the dependency sub-query failing, `getPackage`
does not abort with a 5xx — it answers success with an empty dependency
list, although the store holds the row `("a", "b")` (compare the intact
answer under `noFailQuery`): the caller is handed a partially assembled
result. -/
theorem c9_partial_result_counterexample :
    getPackage oracleDepQueryFails dbOnePkg "a" =
      .found { name := "a", version := "1", tag := "", versions := [],
               description := "d", gitURL := "u", license := "L",
               supports := "", stars := 0, lastModified := "t",
               dependencies := [], features := [], cmakeTarget := "ct" } ∧
    getPackage noFailQuery dbOnePkg "a" =
      .found { name := "a", version := "1", tag := "", versions := [],
               description := "d", gitURL := "u", license := "L",
               supports := "", stars := 0, lastModified := "t",
               dependencies := ["b"], features := [], cmakeTarget := "ct" } ∧
    dbOnePkg.dependencies = [⟨"a", "b"⟩] := by
  decide

/-- C9 (amended): only a failure of the packages-table query aborts a get
or list with a 500; a failure of the scoped dependency (or feature)
sub-queries is swallowed by the helpers, which return empty collections
inside a success response, so the caller can receive a partially assembled
result. -/
theorem c9_store_error_reporting (o : QueryOracle) (db : DB) (nm : String)
    (row : PkgRow) (hne : nm ≠ "") :
    (o.pkgQueryFail = true →
      getPackage o db nm = .serverErr ∧ listPackages o db = .serverErr) ∧
    (o.pkgQueryFail = false →
      db.packages.find? (fun r => r.name == nm) = some row →
      ∃ q, getPackage o db nm = .found q ∧
        (o.depQueryFail nm = true → q.dependencies = []) ∧
        (o.featQueryFail nm = true → q.features = [])) ∧
    (o.pkgQueryFail = false → ∃ l, listPackages o db = .listed l) := by
  have hb : ¬ ((nm == "") = true) := by simp [hne]
  refine ⟨fun h => ⟨?_, ?_⟩, fun h hrow => ?_, fun h => ?_⟩
  · rw [getPackage, if_neg hb, if_pos h]
  · rw [listPackages, if_pos h]
  · rw [getPackage, if_neg hb, if_neg (by simp [h]), hrow]
    refine ⟨_, rfl, fun hd => ?_, fun hf => ?_⟩
    · simp [getPackageDependencies, hd]
    · simp [getPackageFeatures, hf]
  · rw [listPackages, if_neg (by simp [h])]
    exact ⟨_, rfl⟩

/-- C9 witness: the amended statement applied to the concrete store — a
failing packages query answers 500 for both get and list, while a failing
dependency sub-query still answers success with the dependencies blanked. -/
theorem c9_store_error_reporting_witness :
    getPackage oraclePkgQueryFails dbOnePkg "a" = .serverErr ∧
    listPackages oraclePkgQueryFails dbOnePkg = .serverErr ∧
    (∃ q, getPackage oracleDepQueryFails dbOnePkg "a" = .found q ∧
      q.dependencies = []) ∧
    (∃ l, listPackages oracleDepQueryFails dbOnePkg = .listed l) := by
  have h1 := c9_store_error_reporting oraclePkgQueryFails dbOnePkg "a"
    ⟨"a", "1", "d", "u", "L", "", 0, "t", "ct"⟩ (by decide)
  have h2 := c9_store_error_reporting oracleDepQueryFails dbOnePkg "a"
    ⟨"a", "1", "d", "u", "L", "", 0, "t", "ct"⟩ (by decide)
  refine ⟨(h1.1 rfl).1, (h1.1 rfl).2, ?_, h2.2.2 rfl⟩
  obtain ⟨q, hq, hdep, -⟩ := h2.2.1 rfl (by decide)
  exact ⟨q, hq, hdep rfl⟩

/-- Filtering an append whose left part is filtered away. -/
theorem filter_append_left_nil {α : Type} (p : α → Bool) {l1 l2 : List α}
    (h : l1.filter p = []) : (l1 ++ l2).filter p = l2.filter p := by
  rw [List.filter_append, h, List.nil_append]

/-- The feature-dependency block of a feature list contributes nothing for
a feature name that is not among the list's keys. -/
theorem featDepBlock_filter_not_mem (nm fn : String)
    (feats : List (String × Feature))
    (h : fn ∉ feats.map Prod.fst) :
    ((feats.flatMap (fun x => x.2.dependencies.map
        (fun d => (⟨nm, x.1, d⟩ : FeatDepRow)))).filter
      (fun r => r.pkg == nm && r.feat == fn)) = [] := by
  rw [List.filter_eq_nil_iff]
  intro r hr
  rw [List.mem_flatMap] at hr
  obtain ⟨x, hx, hrx⟩ := hr
  rw [List.mem_map] at hrx
  obtain ⟨d, -, rfl⟩ := hrx
  simp only [Bool.and_eq_true, beq_iff_eq]
  rintro ⟨-, rfl⟩
  exact h (List.mem_map_of_mem Prod.fst hx)

/-- With distinct feature names, the feature-dependency block filtered to
one feature name yields exactly that feature's dependency rows, in order. -/
theorem featDepBlock_filter_mem (nm : String) :
    ∀ (feats : List (String × Feature)) (fn : String) (f : Feature),
    (feats.map Prod.fst).Nodup → (fn, f) ∈ feats →
    ((feats.flatMap (fun x => x.2.dependencies.map
        (fun d => (⟨nm, x.1, d⟩ : FeatDepRow)))).filter
      (fun r => r.pkg == nm && r.feat == fn)) =
      f.dependencies.map (fun d => ⟨nm, fn, d⟩)
  | [], fn, f, _, hmem => absurd hmem (List.not_mem_nil _)
  | (g, fg) :: rest, fn, f, hnd, hmem => by
    rw [List.map_cons, List.nodup_cons] at hnd
    rw [List.flatMap_cons, List.filter_append]
    rcases List.mem_cons.mp hmem with heq | hrest
    · obtain ⟨rfl, rfl⟩ := Prod.mk.injEq .. ▸ heq
      rw [featDepBlock_filter_not_mem nm fn rest hnd.1]
      rw [List.filter_map]
      have hall : ((fun r => r.pkg == nm && r.feat == fn) ∘
          (fun d => (⟨nm, fn, d⟩ : FeatDepRow))) = fun _ => true := by
        funext d
        simp
      rw [hall, List.filter_true, List.append_nil]
    · have hfnkey : fn ∈ List.map Prod.fst rest :=
        List.mem_map_of_mem Prod.fst hrest
      have hgfn : ¬ (g = fn) := fun hgf => hnd.1 (hgf ▸ hfnkey)
      have hhead : ((fg.dependencies.map
          (fun d => (⟨nm, g, d⟩ : FeatDepRow))).filter
            (fun r => r.pkg == nm && r.feat == fn)) = [] := by
        rw [List.filter_eq_nil_iff]
        intro r hr
        rw [List.mem_map] at hr
        obtain ⟨d, -, rfl⟩ := hr
        simp only [Bool.and_eq_true, beq_iff_eq]
        rintro ⟨-, rfl⟩
        exact hgfn rfl
      rw [hhead, List.nil_append]
      exact featDepBlock_filter_mem nm rest fn f hnd.2 hrest

/-- C1 (amended): inserting a package with no row failures into a store
holding no rows under its (non-empty) name, then getting it back by name,
returns a record equal to the inserted package on every persisted field —
the nine package columns, the dependency list in order, and the feature
mapping with each feature's description and dependencies — except that
every feature's `required_features` is reconstructed as the empty list
(the store persists no `required_features`), assuming the package's
feature names are distinct. -/
theorem c1_roundtrip_erases_required_features (db : DB) (p : Package)
    (db2 : DB)
    (hn : p.name ≠ "")
    (hp : db.packages.filter (fun r => r.name == p.name) = [])
    (hd : db.dependencies.filter (fun r => r.pkg == p.name) = [])
    (hf : db.features.filter (fun r => r.pkg == p.name) = [])
    (hfd : db.featureDeps.filter (fun r => r.pkg == p.name) = [])
    (hnd : (p.features.map Prod.fst).Nodup)
    (hins : insertPackage noFailExec db p = .done db2) :
    getPackage noFailQuery db2 p.name = .found
      { name := p.name, version := p.version, tag := "", versions := [],
        description := p.description, gitURL := p.gitURL,
        license := p.license, supports := p.supports, stars := p.stars,
        lastModified := p.lastModified,
        dependencies := p.dependencies,
        features := p.features.map
          (fun x => (x.1, { x.2 with requiredFeatures := [] })),
        cmakeTarget := p.cmakeTarget } := by
  rw [insertPackage, if_neg (by simp [noFailExec]), insertDependencies_eq,
    insertFeatures_eq] at hins
  injection hins with hdb
  have hdb2pkg : db2.packages = db.packages ++ [rowOf p] := by
    simpa using (congrArg DB.packages hdb).symm
  have hdb2dep : db2.dependencies =
      db.dependencies ++ p.dependencies.map (fun d => ⟨p.name, d⟩) := by
    simpa [depRowsOf, noFailExec] using (congrArg DB.dependencies hdb).symm
  have hdb2feat : db2.features =
      db.features ++ p.features.map (fun x => ⟨p.name, x.1, x.2.description⟩) := by
    simpa [featRowsOf, survivingFeats, noFailExec]
      using (congrArg DB.features hdb).symm
  have hdb2fd : db2.featureDeps =
      db.featureDeps ++ p.features.flatMap (fun x => x.2.dependencies.map
        (fun d => (⟨p.name, x.1, d⟩ : FeatDepRow))) := by
    simpa [allFeatDepRowsOf, survivingFeats, featDepRowsOf, noFailExec]
      using (congrArg DB.featureDeps hdb).symm
  have hfind : db2.packages.find? (fun r => r.name == p.name) = some (rowOf p) := by
    rw [hdb2pkg, List.find?_append]
    have h1 : db.packages.find? (fun r => r.name == p.name) = none := by
      rw [List.find?_eq_none]
      exact List.filter_eq_nil_iff.mp hp
    rw [h1]
    simp [rowOf]
  have hdeps : getPackageDependencies noFailQuery db2 p.name = p.dependencies := by
    rw [getPackageDependencies, if_neg (by simp [noFailQuery]), hdb2dep,
      filter_append_left_nil _ hd, List.filter_map]
    have hall : ((fun r => r.pkg == p.name) ∘
        (fun d => (⟨p.name, d⟩ : DepRow))) = fun _ => true := by
      funext d
      simp
    rw [hall, List.filter_true, List.map_map]
    exact List.map_id'' (fun x => rfl) p.dependencies
  have hfdeps : ∀ fn f, (fn, f) ∈ p.features →
      getFeatureDependencies noFailQuery db2 p.name fn = f.dependencies := by
    intro fn f hx
    rw [getFeatureDependencies, if_neg (by simp [noFailQuery]), hdb2fd,
      List.filter_append]
    have hold : db.featureDeps.filter
        (fun r => r.pkg == p.name && r.feat == fn) = [] := by
      rw [List.filter_eq_nil_iff]
      intro r hr
      have hrr := List.filter_eq_nil_iff.mp hfd r hr
      simp only [Bool.and_eq_true]
      rintro ⟨hc, -⟩
      exact hrr hc
    rw [hold, List.nil_append,
      featDepBlock_filter_mem p.name p.features fn f hnd hx, List.map_map]
    exact List.map_id'' (fun x => rfl) f.dependencies
  have hfeats : getPackageFeatures noFailQuery db2 p.name =
      p.features.map (fun x => (x.1, { x.2 with requiredFeatures := [] })) := by
    rw [getPackageFeatures, if_neg (by simp [noFailQuery]), hdb2feat,
      filter_append_left_nil _ hf, List.filter_map]
    have hall : ((fun r => r.pkg == p.name) ∘
        (fun x : String × Feature => (⟨p.name, x.1, x.2.description⟩ : FeatRow))) =
        fun _ => true := by
      funext x
      simp
    rw [hall, List.filter_true, List.map_map]
    refine List.map_congr_left (fun x hx => ?_)
    obtain ⟨fn, f⟩ := x
    have hfd2 := hfdeps fn f hx
    simp only [Function.comp]
    rw [hfd2]
  rw [getPackage, if_neg (by simp [hn]), if_neg (by simp [noFailQuery]), hfind]
  simp only [hdeps, hfeats]
  rfl

/-- Extract the store of a successful insert (the happy path of the
counterexample — the insert below does succeed). -/
def dbAfter : InsertResult → DB
  | .done db => db
  | .aborted => emptyDB

/-- A package whose single feature `"f"` carries a non-empty
`required_features` list. -/
def pkgWithReq : Package :=
  { name := "a", version := "1", tag := "", versions := [],
    description := "d", gitURL := "u", license := "L", supports := "",
    stars := 0, lastModified := "t", dependencies := ["x"],
    features := [("f", ⟨"fd", ["f"], ["y"]⟩)], cmakeTarget := "ct" }

/-- C1 counterexample: inserting `pkgWithReq` (whose feature `"f"` has
`required_features == ["f"]`) and reading it back returns the feature with
`required_features == []` — the reconstructed record does not equal the
inserted one on the feature mapping, refuting the claim that
`required_features` round-trips through the store. -/
theorem c1_required_features_lost :
    getPackage noFailQuery
        (dbAfter (insertPackage noFailExec emptyDB pkgWithReq)) "a" =
      .found { pkgWithReq with features := [("f", ⟨"fd", [], ["y"]⟩)] } ∧
    ({ pkgWithReq with features := [("f", ⟨"fd", [], ["y"]⟩)] } : Package).features ≠
      pkgWithReq.features := by
  decide

/-- C1 witness: the amended round-trip applied to `pkgWithReq` over the
empty store. -/
theorem c1_roundtrip_witness :
    insertPackage noFailExec emptyDB pkgWithReq =
      .done (dbAfter (insertPackage noFailExec emptyDB pkgWithReq)) ∧
    getPackage noFailQuery
        (dbAfter (insertPackage noFailExec emptyDB pkgWithReq)) "a" =
      .found { name := "a", version := "1", tag := "", versions := [],
               description := "d", gitURL := "u", license := "L",
               supports := "", stars := 0, lastModified := "t",
               dependencies := ["x"],
               features := [("f", ⟨"fd", [], ["y"]⟩)],
               cmakeTarget := "ct" } := by
  refine ⟨by decide, ?_⟩
  have h := c1_roundtrip_erases_required_features emptyDB pkgWithReq
    (dbAfter (insertPackage noFailExec emptyDB pkgWithReq))
    (by decide) rfl rfl rfl rfl (by decide) (by decide)
  exact h.trans (by decide)

end NewIndexer
